import Mathlib

/-
Verification of the md2conf synchronization engine (application.py) against
its specification.  Text is modelled as `List Char`; the remote Confluence
session is modelled as an explicit `Wiki` state together with a log of
remote events.  Components living outside `application.py` (the converter
helpers, the API client, the matcher, the YAML parser) are modelled from the
specification's interface contracts, as marked in the doc comments.
-/

namespace Md2Conf

abbrev Str := List Char

def strOf (s : String) : Str := s.data

/-- Qualified identity: `(page_id, optional space_key)`, from `converter.ConfluenceQualifiedID`. -/
structure ConfluenceQualifiedID where
  page_id : Str
  space_key : Option Str
  deriving DecidableEq

/-- Remote page as returned by the API client (`api.ConfluencePage`). -/
structure ConfluencePage where
  id : Str
  space_key : Option Str
  title : Str
  deriving DecidableEq

/-- A page stored remotely, with its parent link (remote wiki model). -/
structure RemotePage where
  id : Str
  space_key : Option Str
  title : Str
  parent_id : Option Str
  deriving DecidableEq

/-- Modelled from the spec: the remote session state behind `ConfluenceSession`
(pages, a fresh-id supply, `domain`, `base_path`, default `space_key`). -/
structure Wiki where
  pages : List RemotePage
  next_id : Nat
  domain : Str
  base_path : Str
  space_key : Str
  deriving DecidableEq

/-- `converter.ConfluencePageMetadata`: everything recorded per indexed file. -/
structure ConfluencePageMetadata where
  domain : Str
  base_path : Str
  page_id : Str
  space_key : Str
  title : Str
  deriving DecidableEq

/-- Modelled from the spec: a parsed front-matter value as produced by the
generic structured-data parser; only an open key-value bag with string
values for `title` is contractually consumed. -/
inductive YamlVal where
  | str (s : Str)
  | other
  deriving DecidableEq

/-- Modelled from the spec: outcome of parsing front-matter text: either a
key-value mapping or some non-mapping value. -/
inductive Yaml where
  | mapping (entries : List (Str × YamlVal))
  | nonMapping
  deriving DecidableEq

/-- Observable actions of a synchronization run. `resolve` records each
invocation of the identity resolver with the parent argument it was given;
the others mirror the remote client calls. -/
inductive Event where
  | resolve (path : List Str) (parent : Option ConfluenceQualifiedID)
  | get_page (page_id : Str) (space_key : Option Str)
  | get_or_create_page (title : Str) (parent_page_id : Str) (space_key : Option Str)
      (created : Bool) (result_id : Str)
  | upload_attachment (page_id : Str) (space : Str) (attachment_path : Str)
      (attachment : Str) (raw : Bool)
  | update_page (page_id : Str) (space : Str) (content : Str)
  | sync_page (path : List Str)
  deriving DecidableEq

/-- Run-aborting failures of the core. -/
inductive Err where
  | missingParent (path : List Str)
  | outOfFuel
  deriving DecidableEq

/-- Index of the first occurrence of `pat` in `t` (leftmost match). -/
def firstMatch (pat : Str) : Str → Option Nat
  | [] => if pat = [] then some 0 else none
  | c :: rest =>
    if pat.isPrefixOf (c :: rest) then some 0
    else (firstMatch pat rest).map (fun n => n + 1)

/-- Python `str.find(sub, start)`: position of the first occurrence at or
after `start`, `-1` if there is none. -/
def pyFind (hay pat : Str) (start : Nat) : Int :=
  match firstMatch pat (hay.drop start) with
  | some p => ((p + start : Nat) : Int)
  | none => -1

/-- Python `"\n".join`. -/
def joinNL : List Str → Str
  | [] => []
  | [x] => x
  | x :: y :: rest => x ++ '\n' :: joinNL (y :: rest)

def pid_open : Str := strOf "<!-- confluence-page-id: "

def marker_close : Str := strOf " -->"

def sk_open : Str := strOf "<!-- confluence-space-key: "

def pid_line (page_id : Str) : Str := pid_open ++ page_id ++ marker_close

def sk_line (space_key : Str) : Str := sk_open ++ space_key ++ marker_close

/-- Split `t` at its first occurrence of `pat`: the part before the match and
the part after it, or `none` when `pat` does not occur. -/
def splitAtSub (pat t : Str) : Option (Str × Str) :=
  match firstMatch pat t with
  | some p => some (t.take p, t.drop (p + pat.length))
  | none => none

/-- Modelled from the spec: the optional space-key marker comment of the pair,
directly following the page-id marker on the next line. -/
def parseSpaceSuffix (t : Str) : Option (Str × Str) :=
  if ('\n' :: sk_open).isPrefixOf t then
    splitAtSub marker_close (t.drop (1 + sk_open.length))
  else none

/-- Modelled from the spec: `converter.extract_qualified_id` (not under
`src/`).  Parses the qualified-identity marker pair — a comment
`<!-- confluence-page-id: ID -->` optionally followed by
`<!-- confluence-space-key: KEY -->` — out of the text, returning the
identity (if any) and the text with the marker removed. -/
def extract_qualified_id (t : Str) : Option ConfluenceQualifiedID × Str :=
  match splitAtSub pid_open t with
  | none => (none, t)
  | some (before, rest) =>
    match splitAtSub marker_close rest with
    | none => (none, t)
    | some (pid, after) =>
      match parseSpaceSuffix after with
      | some (k, after2) => (some ⟨pid, some k⟩, before ++ after2)
      | none => (some ⟨pid, none⟩, before ++ after)

/-- Modelled from the spec: `converter.extract_frontmatter` (not under
`src/`).  Recognizes a leading front-matter block (a `---` line, properties,
a closing `---` line) and yields its inner text for property parsing; per
§4.4 the Local State Writer receives the document's original text, so the
block is not removed from the returned document. -/
def extract_frontmatter (t : Str) : Option Str × Str :=
  if (strOf "---\n").isPrefixOf t then
    match firstMatch (strOf "\n---\n") (t.drop 4) with
    | some p => (some ((t.drop 4).take p), t)
    | none => (none, t)
  else (none, t)

/-- Modelled from the spec: `converter.read_qualified_id` (not under `src/`):
the embedded qualified identity of a file's current text, if any. -/
def read_qualified_id (t : Str) : Option ConfluenceQualifiedID :=
  (extract_qualified_id t).1

/-- The marker comment lines written by the Local State Writer: always the
page-id line, plus the space-key line when a (truthy) space key is present. -/
def marker_lines (page_id : Str) (space_key : Option Str) : List Str :=
  [pid_line page_id] ++
    (match space_key with
     | some k => if k.isEmpty then [] else [sk_line k]
     | none => [])

/-- `Application._update_markdown`: rewrite the document text so it embeds
the assigned identity.  If the text starts with `---\n`, the split index is
`find("\n---\n", 4) + 4` (note `-1 + 4 = 3` when the closing delimiter is
missing) and the text up to that index is kept as the first chunk; the
chunks are joined with newlines. -/
def update_markdown (document : Str) (page_id : Str) (space_key : Option Str) : Str :=
  let hasFM := (strOf "---\n").isPrefixOf document
  let index : Nat := if hasFM then (pyFind document (strOf "\n---\n") 4 + 4).toNat else 0
  let header : List Str := if hasFM then [document.take index] else []
  joinNL (header ++ marker_lines page_id space_key ++ [document.drop index])

/-- Modelled from the spec: `ConfluenceSession.get_page` — fetch a page by
its identity; remote failures are outside the core's contract, so the
lookup is total (an unknown id yields an opaque page record for that id). -/
def wiki_get_page (w : Wiki) (page_id : Str) (space_key : Option Str) : ConfluencePage :=
  match w.pages.find? (fun p => p.id == page_id) with
  | some p => ⟨p.id, p.space_key, p.title⟩
  | none => ⟨page_id, space_key, []⟩

def digitChar (d : Nat) : Char := Char.ofNat (48 + d)

def natCharsAux : Nat → Nat → Str
  | 0, _ => []
  | fuel + 1, n =>
    if n < 10 then [digitChar n]
    else natCharsAux fuel (n / 10) ++ [digitChar (n % 10)]

/-- Decimal rendering of a freshly minted page id. -/
def natChars (n : Nat) : Str := natCharsAux (n + 1) n

/-- Modelled from the spec: `ConfluenceSession.get_or_create_page` —
idempotent by title and parent: returns the existing page with the given
title under the given parent if there is one, otherwise creates a fresh
page (with a fresh id) under that parent.  The `Bool` reports whether a
page was created. -/
def wiki_get_or_create_page (w : Wiki) (title : Str) (parent_page_id : Str)
    (space_key : Option Str) : ConfluencePage × Wiki × Bool :=
  match w.pages.find? (fun p => p.title == title && p.parent_id == some parent_page_id) with
  | some p => (⟨p.id, p.space_key, p.title⟩, w, false)
  | none =>
    let pg : RemotePage := ⟨natChars w.next_id, space_key, title, some parent_page_id⟩
    (⟨pg.id, pg.space_key, pg.title⟩,
     ⟨w.pages ++ [pg], w.next_id + 1, w.domain, w.base_path, w.space_key⟩, true)

/-- Python truthiness of an optional string (`None` and `""` are falsy). -/
def truthyOr (o : Option Str) (d : Str) : Str :=
  match o with
  | some k => if k.isEmpty then d else k
  | none => d

/-- The `ConfluencePageMetadata` record built at the end of
`Application._get_or_create_page`: the space key falls back to the
session's default when the page carries none. -/
def mk_metadata (w : Wiki) (page : ConfluencePage) : ConfluencePageMetadata :=
  ⟨w.domain, w.base_path, page.id, truthyOr page.space_key w.space_key, page.title⟩

/-- Python `Path.stem`: file name without its final extension. -/
def stemOf (n : Str) : Str :=
  match firstMatch ['.'] n.reverse with
  | none => n
  | some p => if n.length - 1 - p = 0 then n else n.take (n.length - 1 - p)

/-- The frontmatter-derived title: the `title` property when the parsed
front-matter is a key-value mapping with a string value there. -/
def titleFromFrontmatter (parseYaml : Str → Yaml) (fm : Option Str) : Option Str :=
  match fm with
  | none => none
  | some f =>
    match parseYaml f with
    | Yaml.mapping es =>
      match es.find? (fun e => e.1 == strOf "title") with
      | some (_, YamlVal.str s) => some s
      | some (_, YamlVal.other) => none
      | none => none
    | Yaml.nonMapping => none

/-- `Application._create_page`: derive the title (file stem fallback), call
the remote get-or-create under the parent, write the identity back into the
local text, and report the page, new remote state, new text and events. -/
def create_page (name : Str) (document : Str) (title : Option Str)
    (parent : ConfluenceQualifiedID) (w : Wiki) :
    ConfluencePage × Wiki × Str × List Event :=
  let t := title.getD (stemOf name)
  match wiki_get_or_create_page w t parent.page_id parent.space_key with
  | (page, w2, created) =>
    (page, w2, update_markdown document page.id page.space_key,
     [Event.get_or_create_page t parent.page_id parent.space_key created page.id])

/-- `Application._get_or_create_page` (the Identity Resolver): parse the
marker and the front-matter out of the text; with a marker, fetch the page
by it; without one, require a parent identity, derive a title and create
(or reuse) the page, persisting the identity into the returned text. -/
def get_or_create_page (parseYaml : Str → Yaml) (path : List Str) (name : Str)
    (text : Str) (titleArg : Option Str) (parent_id : Option ConfluenceQualifiedID)
    (w : Wiki) : Except Err (ConfluencePageMetadata × Str × Wiki × List Event) :=
  match (extract_qualified_id text).1 with
  | some qid =>
    let page := wiki_get_page w qid.page_id qid.space_key
    Except.ok (mk_metadata w page, text, w,
      [Event.resolve path parent_id, Event.get_page qid.page_id qid.space_key])
  | none =>
    match parent_id with
    | none => Except.error (Err.missingParent path)
    | some par =>
      let fm := (extract_frontmatter (extract_qualified_id text).2).1
      let title := match titleArg with
        | some t => some t
        | none => titleFromFrontmatter parseYaml fm
      match create_page name (extract_qualified_id text).2 title par w with
      | (page, w2, newText, ev) =>
        Except.ok (mk_metadata w2 page, newText, w2,
          Event.resolve path parent_id :: ev)

/-- The title `Application._get_or_create_page` ends up using for a
markerless document when no explicit title is supplied. -/
def derive_title (parseYaml : Str → Yaml) (name : Str) (text : Str) : Str :=
  (titleFromFrontmatter parseYaml
    (extract_frontmatter (extract_qualified_id text).2).1).getD (stemOf name)

/-- Shared mutable run state of the directory walk: remote state, the
Identity Map (insertion-ordered, Python-dict semantics) and the event log. -/
structure IxSt where
  wiki : Wiki
  meta : List (List Str × ConfluencePageMetadata)
  log : List Event
  deriving DecidableEq

/-- Python-dict insertion: replace the value under an existing key,
otherwise append the new binding. -/
def metaInsert (m : List (List Str × ConfluencePageMetadata)) (k : List Str)
    (v : ConfluencePageMetadata) : List (List Str × ConfluencePageMetadata) :=
  if m.any (fun e => e.1 == k) then m.map (fun e => if e.1 == k then (k, v) else e)
  else m ++ [(k, v)]

/-- The plain-file loop of `Application._index_directory`: resolve each file
with the given parent identity and record its metadata. -/
def index_files (parseYaml : Str → Yaml) (pfx : List Str)
    (parent_id : Option ConfluenceQualifiedID) :
    List (Str × Str) → IxSt → Except Err IxSt
  | [], st => Except.ok st
  | (n, txt) :: rest, st =>
    match get_or_create_page parseYaml (pfx ++ [n]) n txt none parent_id st.wiki with
    | Except.error e => Except.error e
    | Except.ok (md, _, w2, ev) =>
      index_files parseYaml pfx parent_id rest
        ⟨w2, metaInsert st.meta (pfx ++ [n]) md, st.log ++ ev⟩

/-- Representative-document selection of `Application._index_directory`:
`index.md` first, else `README.md` (exact, case-sensitive names). -/
def selectRep (files : List (Str × Str)) : Option (Str × Str) :=
  match files.find? (fun f => f.1 == strOf "index.md") with
  | some f => some f
  | none => files.find? (fun f => f.1 == strOf "README.md")

/-- One directory level of `Application._index_directory`: filter exclusions,
process the representative document first (with the inherited parent), read
the identity back from its rewritten file to obtain the parent for the rest,
then process the remaining files.  Returns the updated state and the parent
identity to propagate into subdirectories. -/
def process_level (parseYaml : Str → Yaml) (excluded : Str → Bool → Bool)
    (pfx : List Str) (root_id : Option ConfluenceQualifiedID)
    (files0 : List (Str × Str)) (st : IxSt) :
    Except Err (IxSt × Option ConfluenceQualifiedID) :=
  let files := files0.filter (fun f => ! excluded f.1 false)
  match selectRep files with
  | none =>
    match index_files parseYaml pfx root_id files st with
    | Except.error e => Except.error e
    | Except.ok st2 => Except.ok (st2, root_id)
  | some (repN, repTxt) =>
    match get_or_create_page parseYaml (pfx ++ [repN]) repN repTxt none root_id st.wiki with
    | Except.error e => Except.error e
    | Except.ok (md, newTxt, w2, ev) =>
      let st1 : IxSt := ⟨w2, metaInsert st.meta (pfx ++ [repN]) md, st.log ++ ev⟩
      let parentId := match read_qualified_id newTxt with
        | some q => some q
        | none => root_id
      match index_files parseYaml pfx parentId
          (files.eraseP (fun f => f.1 == repN)) st1 with
      | Except.error e => Except.error e
      | Except.ok st2 => Except.ok (st2, parentId)

/-- A directory: files (name, content) and named subdirectories. -/
inductive DirTree where
  | mk (files : List (Str × Str)) (subdirs : List (Str × DirTree))

/-- `Application._index_directory` as a depth-first worklist (equivalent to
the source's recursion; the fuel bounds the number of directories and is
irrelevant whenever it exceeds the tree's size).  Each worklist entry is a
directory with its path prefix and its inherited parent identity; a level's
subdirectories are pushed in front with the parent identity computed by
`process_level`. -/
def index_directory (parseYaml : Str → Yaml) (excluded : Str → Bool → Bool) :
    Nat → List (List Str × Option ConfluenceQualifiedID × DirTree) → IxSt →
    Except Err IxSt
  | 0, _, _ => Except.error Err.outOfFuel
  | _ + 1, [], st => Except.ok st
  | fuel + 1, (pfx, root_id, DirTree.mk files0 subs0) :: rest, st =>
    match process_level parseYaml excluded pfx root_id files0 st with
    | Except.error e => Except.error e
    | Except.ok (st1, parentId) =>
      let subs := subs0.filter (fun s => ! excluded s.1 true)
      index_directory parseYaml excluded fuel
        (subs.map (fun s => (pfx ++ [s.1], parentId, s.2)) ++ rest) st1

/-- `Application.synchronize_directory`: phase 1 builds the Identity Map by
indexing the tree from the optional root identity (qualified by the default
space); phase 2 synchronizes every indexed page, in map order. -/
def synchronize_directory (parseYaml : Str → Yaml) (excluded : Str → Bool → Bool)
    (fuel : Nat) (tree : DirTree) (root_page_id : Option Str) (w : Wiki) :
    Except Err IxSt :=
  let root_id := root_page_id.map
    (fun r => (⟨r, some w.space_key⟩ : ConfluenceQualifiedID))
  match index_directory parseYaml excluded fuel [([], root_id, tree)] ⟨w, [], []⟩ with
  | Except.error e => Except.error e
  | Except.ok st =>
    Except.ok ⟨st.wiki, st.meta, st.log ++ st.meta.map (fun pm => Event.sync_page pm.1)⟩

/-- Modelled from the spec: `converter.ConfluenceDocument` (not under
`src/`): the qualified identity, referenced images, embedded images
(name, payload) and the rendered storage-format content (`.xhtml()`). -/
structure ConfluenceDocument where
  id : ConfluenceQualifiedID
  images : List Str
  embedded_images : List (Str × Str)
  content : Str
  deriving DecidableEq

/-- Modelled from the spec: `converter.attachment_name` — a normalized
attachment name derived from the image reference. -/
def attachment_name (n : Str) : Str :=
  n.map (fun c => if c == '/' then '_' else c)

/-- `Application._update_document`: upload every file-referenced image, then
every embedded image (under the `EMB` folder), then submit the rendered
content as a full replacement — all against the given effective space. -/
def update_document (d : ConfluenceDocument) (space : Str) (base_path : Str) :
    List Event :=
  let ev1 := d.images.foldl
    (fun acc img => acc ++
      [Event.upload_attachment d.id.page_id space (base_path ++ img)
        (attachment_name img) false]) []
  let ev2 := d.embedded_images.foldl
    (fun acc im => acc ++
      [Event.upload_attachment d.id.page_id space (strOf "EMB/" ++ im.1)
        (attachment_name im.1) true]) ev1
  ev2 ++ [Event.update_page d.id.page_id space d.content]

/-- `Application._synchronize_page`: when the document carries a truthy
space key, its remote operations run inside `switch_space` (reverted on
exit); otherwise they run in the session's current space.  Returns the
events and the session space in effect afterwards. -/
def synchronize_page (d : ConfluenceDocument) (session_space : Str)
    (base_path : Str) : List Event × Str :=
  match d.id.space_key with
  | some k =>
    if k.isEmpty then (update_document d session_space base_path, session_space)
    else (update_document d k base_path, session_space)
  | none => (update_document d session_space base_path, session_space)

/-- Number of remote page creations recorded in a log. -/
def createdCount (ev : List Event) : Nat :=
  (ev.filter (fun e =>
    match e with
    | Event.get_or_create_page _ _ _ c _ => c
    | _ => false)).length

def isSyncEvent : Event → Bool
  | Event.sync_page _ => true
  | _ => false

def isUploadEvent : Event → Bool
  | Event.upload_attachment _ _ _ _ _ => true
  | _ => false

/-- The space a remote event executes against (content/attachment calls). -/
def eventSpace : Event → Option Str
  | Event.upload_attachment _ sp _ _ _ => some sp
  | Event.update_page _ sp _ => some sp
  | _ => none

/-- `pat <+: t.drop q`: `pat` occurs in `t` at position `q`. -/
def occursAt (pat t : Str) (q : Nat) : Prop := pat <+: t.drop q

/-- Violation witness for the claim that every resolver call other than the
representative's own used the representative's identity as parent. -/
def resolveViolates (repPath : List Str) (repId : ConfluenceQualifiedID) :
    Event → Bool
  | Event.resolve p par => !(p == repPath) && !(par == some repId)
  | _ => false

/-- Concrete tree for the nested-representative scenario: the top directory
and its subdirectory each hold an `index.md` with an embedded identity,
plus a markerless sibling in the subdirectory. -/
def exTree : DirTree :=
  DirTree.mk
    [(strOf "index.md", strOf "<!-- confluence-page-id: 1 -->\ntop")]
    [(strOf "sub", DirTree.mk
      [(strOf "index.md", strOf "<!-- confluence-page-id: 2 -->\nsub"),
       (strOf "a.md", strOf "hello")] [])]

def exParse : Str → Yaml := fun _ => Yaml.nonMapping

def exWiki : Wiki := ⟨[], 0, strOf "example.com", strOf "/wiki/", strOf "SPACE"⟩

def exRun : Except Err IxSt :=
  index_directory exParse (fun _ _ => false) 5 [([], none, exTree)] ⟨exWiki, [], []⟩

def logOf (r : Except Err IxSt) : List Event :=
  match r with
  | Except.ok st => st.log
  | Except.error _ => []

def isOk (r : Except Err IxSt) : Bool :=
  match r with
  | Except.ok _ => true
  | Except.error _ => false

def isOkLevel (r : Except Err (IxSt × Option ConfluenceQualifiedID)) : Bool :=
  match r with
  | Except.ok _ => true
  | Except.error _ => false

/-- Concrete directory listing holding both `index.md` and `README.md`. -/
def c4files : List (Str × Str) :=
  [(strOf "index.md", strOf "<!-- confluence-page-id: 1 -->\ntop"),
   (strOf "README.md", strOf "<!-- confluence-page-id: 2 -->\nreadme")]

/-! ### String-search lemmas -/

theorem occursAt_zero {pat t : Str} : occursAt pat t 0 ↔ pat <+: t := by
  simp [occursAt]

theorem occursAt_cons_succ {pat : Str} {c : Char} {t : Str} {q : Nat} :
    occursAt pat (c :: t) (q + 1) ↔ occursAt pat t q := by
  simp [occursAt]

theorem firstMatch_eq_some {pat : Str} :
    ∀ {t : Str} {p : Nat}, firstMatch pat t = some p →
      occursAt pat t p ∧ ∀ q, q < p → ¬ occursAt pat t q := by
  intro t
  induction t with
  | nil =>
    intro p h
    by_cases hp : pat = ([] : Str)
    · simp [firstMatch, hp] at h
      subst h
      refine ⟨by simp [occursAt, hp], fun q hq => absurd hq (by omega)⟩
    · simp [firstMatch, hp] at h
  | cons c rest ih =>
    intro p h
    by_cases hpre : pat.isPrefixOf (c :: rest)
    · simp [firstMatch, hpre] at h
      subst h
      refine ⟨occursAt_zero.2 (List.isPrefixOf_iff_prefix.1 hpre), ?_⟩
      intro q hq
      omega
    · simp [firstMatch, hpre] at h
      obtain ⟨p2, hp2, rfl⟩ := h
      obtain ⟨h1, h2⟩ := ih hp2
      refine ⟨occursAt_cons_succ.2 h1, ?_⟩
      intro q hq
      match q with
      | 0 =>
        rw [occursAt_zero]
        intro hx
        exact hpre (List.isPrefixOf_iff_prefix.2 hx)
      | q2 + 1 =>
        rw [occursAt_cons_succ]
        exact h2 q2 (by omega)

theorem firstMatch_eq_none {pat : Str} :
    ∀ {t : Str}, firstMatch pat t = none → ∀ q, ¬ occursAt pat t q := by
  intro t
  induction t with
  | nil =>
    intro h q
    by_cases hp : pat = ([] : Str)
    · simp [firstMatch, hp] at h
    · intro hocc
      have h1 : pat <+: ([] : Str) := by simpa [occursAt] using hocc
      exact hp (List.prefix_nil.1 h1)
  | cons c rest ih =>
    intro h q
    by_cases hpre : pat.isPrefixOf (c :: rest)
    · simp [firstMatch, hpre] at h
    · simp [firstMatch, hpre] at h
      match q with
      | 0 =>
        rw [occursAt_zero]
        intro hx
        exact hpre (List.isPrefixOf_iff_prefix.2 hx)
      | q2 + 1 =>
        rw [occursAt_cons_succ]
        exact ih h q2

theorem firstMatch_le_of_occursAt {pat t : Str} {p : Nat} (h : occursAt pat t p) :
    ∃ p2, firstMatch pat t = some p2 ∧ p2 ≤ p := by
  match hfm : firstMatch pat t with
  | none => exact absurd h (firstMatch_eq_none hfm p)
  | some p2 =>
    obtain ⟨h1, h2⟩ := firstMatch_eq_some hfm
    refine ⟨p2, rfl, ?_⟩
    by_contra hlt
    exact h2 p (by omega) h

theorem occursAt_getElem {pat t : Str} {q : Nat} (h : occursAt pat t q)
    {i : Nat} (hi : i < pat.length) : t[q + i]? = pat[i]? := by
  obtain ⟨s, hs⟩ := h
  have h1 : (t.drop q)[i]? = t[q + i]? := List.getElem?_drop t q i
  rw [← h1, ← hs, List.getElem?_append_left hi]

theorem occursAt_take {pat t : Str} {q n : Nat} (h : occursAt pat t q)
    (hn : q + pat.length ≤ n) : occursAt pat (t.take n) q := by
  obtain ⟨s, hs⟩ := h
  have hlen : pat.length ≤ n - q := by omega
  have key : (t.take n).drop q = pat ++ s.take (n - q - pat.length) := by
    rw [List.drop_take n q t, ← hs, List.take_append_eq_append_take,
      List.take_of_length_le hlen, Nat.sub_sub]
  exact ⟨_, key.symm⟩

theorem occursAt_of_take {pat t : Str} {q n : Nat}
    (h : occursAt pat (t.take n) q) : occursAt pat t q := by
  have h2 : (t.take n).drop q <+: t.drop q := by
    rw [List.drop_take n q t]
    exact List.take_prefix _ _
  exact h.trans h2

theorem occursAt_shift {pat t : Str} {n q : Nat} (h : occursAt pat (t.drop n) q) :
    occursAt pat t (n + q) := by
  unfold occursAt at *
  rwa [List.drop_drop] at h

/-! ### Shape of the writer's output -/

theorem joinNL_cons_of_ne_nil (x : Str) {l : List Str} (h : l ≠ []) :
    joinNL (x :: l) = x ++ '\n' :: joinNL l := by
  match l with
  | [] => exact absurd rfl h
  | y :: rest => rfl

theorem marker_lines_ne_nil (pid : Str) (sk : Option Str) (d : Str) :
    marker_lines pid sk ++ [d] ≠ [] := by
  simp [marker_lines]

theorem joinNL_markers (pid : Str) (sk : Option Str) (d : Str) :
    ∃ X, joinNL (marker_lines pid sk ++ [d]) =
      pid_open ++ (pid ++ (marker_close ++ X)) := by
  match sk with
  | none =>
    refine ⟨'\n' :: d, ?_⟩
    simp [marker_lines, joinNL, pid_line]
  | some k =>
    by_cases hk : k.isEmpty
    · refine ⟨'\n' :: d, ?_⟩
      simp [marker_lines, hk, joinNL, pid_line]
    · refine ⟨'\n' :: (sk_line k ++ '\n' :: d), ?_⟩
      simp [marker_lines, hk, joinNL, pid_line]

/-- The writer's output decomposes as a head chunk `A` (empty, or the kept
part of the document followed by a joining newline) and the marker text. -/
theorem update_markdown_decomp (doc pid : Str) (sk : Option Str) :
    ∃ A X, update_markdown doc pid sk = A ++ (pid_open ++ (pid ++ (marker_close ++ X)))
      ∧ (A = [] ∨ ∃ i, i ≤ doc.length ∧ A = doc.take i ++ ['\n']) := by
  unfold update_markdown
  by_cases hfm : (strOf "---\n").isPrefixOf doc
  · have hlen4 : 4 ≤ doc.length := by
      have := (List.isPrefixOf_iff_prefix.1 hfm).length_le
      simpa [strOf] using this
    simp only [hfm, if_true]
    set idx := (pyFind doc (strOf "\n---\n") 4 + 4).toNat with hidx
    have hle : idx ≤ doc.length := by
      rw [hidx]
      unfold pyFind
      match hfm2 : firstMatch (strOf "\n---\n") (doc.drop 4) with
      | none => simpa using by omega
      | some p =>
        have hocc := (firstMatch_eq_some hfm2).1
        have h5 : (strOf "\n---\n").length ≤ (doc.drop (4 + p)).length := by
          have := occursAt_shift hocc
          exact this.length_le
        simp only [strOf] at h5 ⊢
        simp at h5
        simp
        omega
    obtain ⟨X, hX⟩ := joinNL_markers pid sk (doc.drop idx)
    refine ⟨doc.take idx ++ ['\n'], X, ?_, Or.inr ⟨idx, hle, rfl⟩⟩
    rw [List.append_assoc, List.singleton_append,
      joinNL_cons_of_ne_nil (doc.take idx) (marker_lines_ne_nil pid sk (doc.drop idx)), hX]
    simp
  · simp only [hfm, if_false]
    obtain ⟨X, hX⟩ := joinNL_markers pid sk (doc.drop 0)
    exact ⟨[], X, by simpa using hX, Or.inl rfl⟩

/-- No occurrence of the page-id marker opener strictly before the inserted
marker: inside the kept document part it would contradict `hfree`, and an
occurrence covering the joining newline is impossible since the opener
contains no newline. -/
theorem no_occurs_before (doc : Str) {i : Nat} (tail : Str) (hi : i ≤ doc.length)
    (hfree : firstMatch pid_open doc = none) :
    ∀ q, q < i + 1 → ¬ occursAt pid_open (doc.take i ++ '\n' :: tail) q := by
  intro q hq hocc
  have hlen : (doc.take i).length = i := by simp [hi]
  by_cases hcase : q + pid_open.length ≤ i
  · have h1 : occursAt pid_open ((doc.take i ++ '\n' :: tail).take i) q :=
      occursAt_take hocc (by omega)
    have h2 : (doc.take i ++ '\n' :: tail).take i = doc.take i := by
      rw [List.take_append_eq_append_take, hlen, Nat.sub_self]
      simp [List.take_take]
    rw [h2] at h1
    exact firstMatch_eq_none hfree q (occursAt_of_take h1)
  · have ht_i : (doc.take i ++ '\n' :: tail)[i]? = some '\n' := by
      rw [List.getElem?_append_right (by omega : (doc.take i).length ≤ i)]
      simp [hlen]
    have hi_lt : i - q < pid_open.length := by
      have : 0 < pid_open.length := by decide
      omega
    have hchar := occursAt_getElem hocc hi_lt
    rw [(by omega : q + (i - q) = i), ht_i] at hchar
    have hmem : '\n' ∈ pid_open := List.getElem?_mem hchar.symm
    exact absurd hmem (by decide)

/-- Splitting at the first occurrence, when the occurrence position is known. -/
theorem splitAtSub_of_firstMatch {pat t : Str} {p : Nat}
    (h : firstMatch pat t = some p) :
    splitAtSub pat t = some (t.take p, t.drop (p + pat.length)) := by
  simp [splitAtSub, h]

/-- The extractor recovers the page id that the writer embedded, for any
document with no occurrence of the marker opener and any id without a
space character. -/
theorem extract_update (doc pid : Str) (sk : Option Str)
    (hfree : firstMatch pid_open doc = none) (hsp : (' ') ∉ pid) :
    ∃ skr rest, extract_qualified_id (update_markdown doc pid sk) =
      (some ⟨pid, skr⟩, rest) := by
  obtain ⟨A, X, hout, hA⟩ := update_markdown_decomp doc pid sk
  set out := update_markdown doc pid sk with hdefout
  -- the first occurrence of the opener in the output is exactly at `A.length`
  have hocc_at : occursAt pid_open out A.length := by
    rw [hout]
    refine ⟨pid ++ (marker_close ++ X), ?_⟩
    rw [List.drop_left]
  have hnone_before : ∀ q, q < A.length → ¬ occursAt pid_open out q := by
    rcases hA with rfl | ⟨i, hi, rfl⟩
    · intro q hq
      simp at hq
    · intro q hq hocc
      have hlen : (doc.take i ++ ['\n']).length = i + 1 := by simp [hi]
      rw [hlen] at hq
      have hout2 : out = doc.take i ++ '\n' :: (pid_open ++ (pid ++ (marker_close ++ X))) := by
        rw [hout]
        simp
      rw [hout2] at hocc
      exact no_occurs_before doc _ hi hfree q hq hocc
  have hfm_out : firstMatch pid_open out = some A.length := by
    obtain ⟨p2, hp2, hple⟩ := firstMatch_le_of_occursAt hocc_at
    rcases Nat.lt_or_ge p2 A.length with hlt | hge
    · exact absurd ((firstMatch_eq_some hp2).1) (hnone_before p2 hlt)
    · rw [hp2]
      congr 1
      omega
  have hsplit1 : splitAtSub pid_open out =
      some (out.take A.length, out.drop (A.length + pid_open.length)) :=
    splitAtSub_of_firstMatch hfm_out
  have hdrop1 : out.drop (A.length + pid_open.length) = pid ++ (marker_close ++ X) := by
    rw [hout, ← List.append_assoc, ← List.length_append A pid_open]
    exact List.drop_left _ _
  -- the close marker is found right after the id: the id has no space
  have hocc_close : occursAt marker_close (pid ++ (marker_close ++ X)) pid.length := by
    refine ⟨X, ?_⟩
    rw [List.drop_left]
  have hnone_close : ∀ q, q < pid.length →
      ¬ occursAt marker_close (pid ++ (marker_close ++ X)) q := by
    intro q hq hocc
    have h0 : (0 : Nat) < marker_close.length := by decide
    have hchar := occursAt_getElem hocc h0
    rw [Nat.add_zero, List.getElem?_append_left hq] at hchar
    have hc0 : marker_close[0]? = some ' ' := by decide
    rw [hc0] at hchar
    exact hsp (List.getElem?_mem hchar)
  have hfm_close : firstMatch marker_close (pid ++ (marker_close ++ X)) =
      some pid.length := by
    obtain ⟨p2, hp2, hple⟩ := firstMatch_le_of_occursAt hocc_close
    rcases Nat.lt_or_ge p2 pid.length with hlt | hge
    · exact absurd ((firstMatch_eq_some hp2).1) (hnone_close p2 hlt)
    · rw [hp2]
      congr 1
      omega
  have hsplit2 : splitAtSub marker_close (pid ++ (marker_close ++ X)) =
      some (pid, X) := by
    rw [splitAtSub_of_firstMatch hfm_close]
    congr 2
    · exact List.take_left pid _
    · rw [← List.length_append pid marker_close, ← List.append_assoc]
      exact List.drop_left _ _
  unfold extract_qualified_id
  rw [hsplit1, hdrop1]
  simp only [hsplit2]
  cases hps : parseSpaceSuffix X with
  | some ka =>
    obtain ⟨k, a2⟩ := ka
    refine ⟨some k, out.take A.length ++ a2, ?_⟩
    simp [hps]
  | none =>
    refine ⟨none, out.take A.length ++ X, ?_⟩
    simp [hps]

theorem joinNL_append_last {xs : List Str} (h : xs ≠ []) (d : Str) :
    joinNL (xs ++ [d]) = joinNL xs ++ '\n' :: d := by
  induction xs with
  | nil => exact absurd rfl h
  | cons x rest ih =>
    match rest with
    | [] => rfl
    | y :: rest2 =>
      rw [List.cons_append, joinNL_cons_of_ne_nil x (by simp),
        joinNL_cons_of_ne_nil x (by simp), ih (by simp)]
      simp

theorem update_index_of_found {doc : Str} {p : Nat}
    (hcl : firstMatch (strOf "\n---\n") (doc.drop 4) = some p) :
    (pyFind doc (strOf "\n---\n") 4 + 4).toNat = p + 8 := by
  unfold pyFind
  rw [hcl]
  show (((p + 4 : Nat) : Int) + 4).toNat = p + 8
  omega

theorem update_index_of_missing {doc : Str}
    (hcl : firstMatch (strOf "\n---\n") (doc.drop 4) = none) :
    (pyFind doc (strOf "\n---\n") 4 + 4).toNat = 3 := by
  unfold pyFind
  rw [hcl]
  rfl

/-- C2: for a document that begins with a (properly closed) front-matter
block, the Local State Writer's output is the document's first `p + 8`
characters — whose extension by the joining newline is exactly the
front-matter block, opening and closing `---` delimiter lines included —
followed by the marker lines and the untouched remainder of the document;
the preserved prefix and remainder reassemble to the original document, so
only the marker lines (and the joining newlines) are added. -/
theorem c2_frontmatter_preserved (doc pid : Str) (sk : Option Str) {p : Nat}
    (hfm : (strOf "---\n").isPrefixOf doc = true)
    (hcl : firstMatch (strOf "\n---\n") (doc.drop 4) = some p) :
    update_markdown doc pid sk =
      doc.take (p + 8) ++ '\n' :: (joinNL (marker_lines pid sk) ++ '\n' :: doc.drop (p + 8)) ∧
    doc.take (p + 8) ++ doc.drop (p + 8) = doc ∧
    doc.take (p + 8) ++ ['\n'] = doc.take (p + 9) ∧
    (∃ mid, doc.take (p + 9) = strOf "---\n" ++ mid ++ strOf "\n---\n") := by
  have hocc : occursAt (strOf "\n---\n") doc (4 + p) :=
    occursAt_shift (firstMatch_eq_some hcl).1
  have hchar : doc[p + 8]? = some '\n' := by
    have h4 : (4 : Nat) < (strOf "\n---\n").length := by decide
    have := occursAt_getElem hocc h4
    rw [(by omega : 4 + p + 4 = p + 8)] at this
    rw [this]
    decide
  refine ⟨?_, List.take_append_drop _ _, ?_, ?_⟩
  · unfold update_markdown
    rw [hfm]
    simp only [if_true, update_index_of_found hcl]
    rw [List.append_assoc, List.singleton_append,
      joinNL_cons_of_ne_nil _ (marker_lines_ne_nil pid sk (doc.drop (p + 8))),
      joinNL_append_last (by simp [marker_lines])]
  · have h9 : p + 9 = (p + 8) + 1 := by omega
    rw [h9]
    conv_rhs => rw [List.take_succ]
    rw [hchar]
    rfl
  · obtain ⟨r, hr⟩ := List.isPrefixOf_iff_prefix.1 hfm
    have hrd : r = doc.drop 4 := by
      rw [← hr, List.drop_append_eq_append_drop]
      simp [strOf]
    obtain ⟨s, hs⟩ := (firstMatch_eq_some hcl).1
    have hd4 : (List.drop 4 doc).length = doc.length - 4 := by simp
    have hple : p ≤ (doc.drop 4).length := by
      have hlen := congrArg List.length hs
      simp [strOf] at hlen
      omega
    refine ⟨(doc.drop 4).take p, ?_⟩
    have hsplit : doc.drop 4 = (doc.drop 4).take p ++ (strOf "\n---\n" ++ s) := by
      rw [hs, List.take_append_drop]
    have hdoc2 : doc = (strOf "---\n" ++ ((doc.drop 4).take p ++ strOf "\n---\n")) ++ s := by
      conv_lhs => rw [← hr, hrd, hsplit]
      simp [List.append_assoc]
    have hlenpre : (strOf "---\n" ++ ((doc.drop 4).take p ++ strOf "\n---\n")).length
        = p + 9 := by
      simp [strOf, List.length_take]
      omega
    calc doc.take (p + 9)
        = ((strOf "---\n" ++ ((doc.drop 4).take p ++ strOf "\n---\n")) ++ s).take (p + 9) := by
          conv_lhs => rw [hdoc2]
      _ = strOf "---\n" ++ ((doc.drop 4).take p ++ strOf "\n---\n") := by
          rw [← hlenpre]
          exact List.take_left _ _
      _ = strOf "---\n" ++ (doc.drop 4).take p ++ strOf "\n---\n" := by
          rw [List.append_assoc]

/-- C10: when the text handed to the Local State Writer starts with the line
`---` but has no closing `\n---\n` delimiter, the writer still takes the
front-matter branch: the search returns `-1`, the split index becomes `3`,
and the marker lines are inserted right after the three characters `---`
(splitting the first line) with the rest of the text — starting with the
original first line's newline — appended unchanged. -/
theorem c10_unterminated_frontmatter (doc pid : Str) (sk : Option Str)
    (hfm : (strOf "---\n").isPrefixOf doc = true)
    (hno : firstMatch (strOf "\n---\n") (doc.drop 4) = none) :
    pyFind doc (strOf "\n---\n") 4 = -1 ∧
    update_markdown doc pid sk =
      strOf "---" ++ '\n' :: (joinNL (marker_lines pid sk) ++ '\n' :: doc.drop 3) ∧
    strOf "---" ++ doc.drop 3 = doc := by
  obtain ⟨r, hr⟩ := List.isPrefixOf_iff_prefix.1 hfm
  have htake : doc.take 3 = strOf "---" := by
    rw [← hr, List.take_append_eq_append_take]
    simp [strOf]
  refine ⟨?_, ?_, ?_⟩
  · unfold pyFind
    rw [hno]
  · unfold update_markdown
    rw [hfm]
    simp only [if_true, update_index_of_missing hno]
    rw [List.append_assoc, List.singleton_append,
      joinNL_cons_of_ne_nil _ (marker_lines_ne_nil pid sk (doc.drop 3)),
      joinNL_append_last (by simp [marker_lines]), htake]
  · rw [← htake, List.take_append_drop]

theorem c2_frontmatter_preserved_witness :
    ((strOf "---\n").isPrefixOf (strOf "---\na: b\n---\nbody") = true) ∧
    (firstMatch (strOf "\n---\n") ((strOf "---\na: b\n---\nbody").drop 4) = some 4) ∧
    update_markdown (strOf "---\na: b\n---\nbody") (strOf "123") (some (strOf "DOC")) =
      (strOf "---\na: b\n---\nbody").take 12 ++
        '\n' :: (joinNL (marker_lines (strOf "123") (some (strOf "DOC"))) ++
          '\n' :: (strOf "---\na: b\n---\nbody").drop 12) :=
  ⟨by decide, by decide,
    (c2_frontmatter_preserved (strOf "---\na: b\n---\nbody") (strOf "123")
      (some (strOf "DOC")) (p := 4) (by decide) (by decide)).1⟩

theorem c10_unterminated_frontmatter_witness :
    ((strOf "---\nabc").isPrefixOf (strOf "---\nabc") = true ∨ True) ∧
    ((strOf "---\n").isPrefixOf (strOf "---\nabc") = true) ∧
    (firstMatch (strOf "\n---\n") ((strOf "---\nabc").drop 4) = none) ∧
    pyFind (strOf "---\nabc") (strOf "\n---\n") 4 = -1 ∧
    update_markdown (strOf "---\nabc") (strOf "7") none =
      strOf "---" ++ '\n' :: (joinNL (marker_lines (strOf "7") none) ++
        '\n' :: (strOf "---\nabc").drop 3) :=
  ⟨Or.inr trivial, by decide, by decide,
    (c10_unterminated_frontmatter (strOf "---\nabc") (strOf "7") none
      (by decide) (by decide)).1,
    (c10_unterminated_frontmatter (strOf "---\nabc") (strOf "7") none
      (by decide) (by decide)).2.1⟩

/-! ### Identity Resolver lemmas -/

theorem extract_qid_of_free {t : Str} (hfree : firstMatch pid_open t = none) :
    extract_qualified_id t = (none, t) := by
  simp [extract_qualified_id, splitAtSub, hfree]

theorem extract_qid_none_snd {t : Str} (h : (extract_qualified_id t).1 = none) :
    (extract_qualified_id t).2 = t := by
  unfold extract_qualified_id at h ⊢
  cases h1 : splitAtSub pid_open t with
  | none => simp [h1]
  | some br =>
    obtain ⟨b, r⟩ := br
    simp only [h1] at h ⊢
    cases h2 : splitAtSub marker_close r with
    | none => simp [h2]
    | some pa =>
      obtain ⟨pp, aa⟩ := pa
      simp only [h2] at h ⊢
      cases h3 : parseSpaceSuffix aa with
      | some ka =>
        obtain ⟨k, a2⟩ := ka
        simp [h3] at h
      | none => simp [h3] at h

/-- C5: the Identity Resolver fails — raising the error that names the
offending file — exactly when the document carries no identity marker and
the supplied parent identity is absent; when a marker is present it fetches
the remote page by that identity and never creates a page, whatever the
parent argument is. -/
theorem c5_resolver_error_iff (parseYaml : Str → Yaml) (path : List Str)
    (name text : Str) (titleArg : Option Str)
    (parent_id : Option ConfluenceQualifiedID) (w : Wiki) :
    ((∃ e, get_or_create_page parseYaml path name text titleArg parent_id w =
        Except.error e) ↔
      ((extract_qualified_id text).1 = none ∧ parent_id = none)) ∧
    (∀ e, get_or_create_page parseYaml path name text titleArg parent_id w =
        Except.error e → e = Err.missingParent path) ∧
    (∀ qid, (extract_qualified_id text).1 = some qid →
      get_or_create_page parseYaml path name text titleArg parent_id w =
        Except.ok (mk_metadata w (wiki_get_page w qid.page_id qid.space_key), text, w,
          [Event.resolve path parent_id, Event.get_page qid.page_id qid.space_key])) := by
  cases hq : (extract_qualified_id text).1 with
  | some qid =>
    refine ⟨?_, ?_, ?_⟩
    · simp [get_or_create_page, hq]
    · simp [get_or_create_page, hq]
    · intro qid2 hq2
      injection hq2 with h5
      subst h5
      simp [get_or_create_page, hq]
  | none =>
    cases parent_id with
    | none =>
      refine ⟨?_, ?_, ?_⟩
      · simp [get_or_create_page, hq]
      · intro e he
        simp [get_or_create_page, hq] at he
        exact he.symm
      · intro qid2 hq2
        exact absurd hq2 (by simp)
    | some par =>
      refine ⟨?_, ?_, ?_⟩
      · simp [get_or_create_page, hq]
      · intro e he
        simp [get_or_create_page, hq] at he
      · intro qid2 hq2
        exact absurd hq2 (by simp)

theorem c5_resolver_error_iff_witness :
    ((extract_qualified_id (strOf "hello")).1 = none ∧
      (none : Option ConfluenceQualifiedID) = none) ∧
    (∃ e, get_or_create_page exParse [strOf "a.md"] (strOf "a.md") (strOf "hello")
        none none exWiki = Except.error e) :=
  ⟨⟨by decide, rfl⟩,
    (c5_resolver_error_iff exParse [strOf "a.md"] (strOf "a.md") (strOf "hello")
      none none exWiki).1.2 ⟨by decide, rfl⟩⟩

/-- C6: a markerless document whose front-matter does not parse as a
key-value mapping does not make the resolver fail: the front-matter is
treated as absent and the get-or-create call uses the file's base name
without extension as the title. -/
theorem c6_malformed_frontmatter (parseYaml : Str → Yaml) (path : List Str)
    (name text fm : Str) (par : ConfluenceQualifiedID) (w : Wiki)
    (hext : (extract_qualified_id text).1 = none)
    (hfm : (extract_frontmatter text).1 = some fm)
    (hbad : ∀ es, parseYaml fm ≠ Yaml.mapping es) :
    ∃ md txt w2 created rid,
      get_or_create_page parseYaml path name text none (some par) w =
        Except.ok (md, txt, w2,
          [Event.resolve path (some par),
           Event.get_or_create_page (stemOf name) par.page_id par.space_key
             created rid]) := by
  have hsnd := extract_qid_none_snd hext
  have htitle : titleFromFrontmatter parseYaml (extract_frontmatter text).1 = none := by
    rw [hfm]
    unfold titleFromFrontmatter
    cases hy : parseYaml fm with
    | mapping es => exact absurd hy (hbad es)
    | nonMapping => simp [hy]
  refine ⟨mk_metadata (wiki_get_or_create_page w (stemOf name) par.page_id par.space_key).2.1
      (wiki_get_or_create_page w (stemOf name) par.page_id par.space_key).1,
    update_markdown text
      (wiki_get_or_create_page w (stemOf name) par.page_id par.space_key).1.id
      (wiki_get_or_create_page w (stemOf name) par.page_id par.space_key).1.space_key,
    (wiki_get_or_create_page w (stemOf name) par.page_id par.space_key).2.1,
    (wiki_get_or_create_page w (stemOf name) par.page_id par.space_key).2.2,
    (wiki_get_or_create_page w (stemOf name) par.page_id par.space_key).1.id, ?_⟩
  simp [get_or_create_page, hext, create_page, htitle, hsnd]

theorem digit_ne_space {n : Nat} (h : n < 10) : digitChar n ≠ ' ' := by
  interval_cases n <;> decide

theorem natCharsAux_no_space : ∀ f n, (' ') ∉ natCharsAux f n := by
  intro f
  induction f with
  | zero =>
    intro n
    simp [natCharsAux]
  | succ f2 ih =>
    intro n
    by_cases h : n < 10
    · simp only [natCharsAux, h, if_true]
      intro hmem
      have h2 : (' ') = digitChar n := by simpa using hmem
      exact digit_ne_space h h2.symm
    · simp only [natCharsAux, h, if_false]
      intro hmem
      rcases List.mem_append.1 hmem with h1 | h2
      · exact ih (n / 10) h1
      · have h3 : (' ') = digitChar (n % 10) := by simpa using h2
        exact digit_ne_space (Nat.mod_lt _ (by omega)) h3.symm

theorem natChars_no_space (n : Nat) : (' ') ∉ natChars n :=
  natCharsAux_no_space _ _

/-- The create path of the resolver, in terms of the remote get-or-create
call on the derived title. -/
theorem gocp_markerless_ok (parseYaml : Str → Yaml) (path : List Str)
    (name text : Str) (par : ConfluenceQualifiedID) (w : Wiki)
    (hext : (extract_qualified_id text).1 = none) :
    ∃ page w2 created,
      wiki_get_or_create_page w (derive_title parseYaml name text) par.page_id
        par.space_key = (page, w2, created) ∧
      get_or_create_page parseYaml path name text none (some par) w =
        Except.ok (mk_metadata w2 page,
          update_markdown text page.id page.space_key, w2,
          [Event.resolve path (some par),
           Event.get_or_create_page (derive_title parseYaml name text) par.page_id
             par.space_key created page.id]) := by
  have hsnd := extract_qid_none_snd hext
  refine ⟨(wiki_get_or_create_page w (derive_title parseYaml name text) par.page_id
      par.space_key).1,
    (wiki_get_or_create_page w (derive_title parseYaml name text) par.page_id
      par.space_key).2.1,
    (wiki_get_or_create_page w (derive_title parseYaml name text) par.page_id
      par.space_key).2.2, rfl, ?_⟩
  simp [get_or_create_page, hext, create_page, derive_title, hsnd]

/-- The marker path of the resolver: fetch by the embedded identity. -/
theorem gocp_marker_ok (parseYaml : Str → Yaml) (path : List Str) (name text : Str)
    (titleArg : Option Str) (parent_id : Option ConfluenceQualifiedID) (w : Wiki)
    (qid : ConfluenceQualifiedID) (hq : (extract_qualified_id text).1 = some qid) :
    get_or_create_page parseYaml path name text titleArg parent_id w =
      Except.ok (mk_metadata w (wiki_get_page w qid.page_id qid.space_key), text, w,
        [Event.resolve path parent_id, Event.get_page qid.page_id qid.space_key]) := by
  simp [get_or_create_page, hq]

/-- C1: synchronizing a markerless document twice performs exactly one
remote page creation: the first run creates the page (under a title and
parent with no pre-existing page) and persists the minted identity into the
text; the second run, on the rewritten text, extracts that identity and
takes the get-page path — creating nothing, rewriting nothing, and leaving
the remote state untouched — and resolves to the same page id, whatever
parent argument it is given. -/
theorem c1_sync_twice_single_creation (parseYaml : Str → Yaml) (path : List Str)
    (name text : Str) (par : ConfluenceQualifiedID)
    (par2 : Option ConfluenceQualifiedID) (w : Wiki)
    (hfree : firstMatch pid_open text = none)
    (hfresh : ∀ pg ∈ w.pages, ¬(pg.title = derive_title parseYaml name text ∧
      pg.parent_id = some par.page_id))
    (hid : ∀ pg ∈ w.pages, pg.id ≠ natChars w.next_id) :
    ∃ md1 txt1 w1 ev1 md2 txt2 w2 ev2,
      get_or_create_page parseYaml path name text none (some par) w =
        Except.ok (md1, txt1, w1, ev1) ∧
      get_or_create_page parseYaml path name txt1 none par2 w1 =
        Except.ok (md2, txt2, w2, ev2) ∧
      createdCount ev1 = 1 ∧ createdCount ev2 = 0 ∧
      (∃ sk2, ev2 = [Event.resolve path par2, Event.get_page md1.page_id sk2]) ∧
      read_qualified_id txt1 ≠ none ∧
      md2.page_id = md1.page_id ∧ txt2 = txt1 ∧ w2 = w1 := by
  have hext : (extract_qualified_id text).1 = none := by
    rw [extract_qid_of_free hfree]
  obtain ⟨page, w1, created, hW, hrun1⟩ :=
    gocp_markerless_ok parseYaml path name text par w hext
  have hfind : w.pages.find? (fun p => p.title == derive_title parseYaml name text &&
      p.parent_id == some par.page_id) = none := by
    rw [List.find?_eq_none]
    intro pg hpg hc
    simp only [Bool.and_eq_true, beq_iff_eq] at hc
    exact hfresh pg hpg ⟨hc.1, hc.2⟩
  have hW2 : wiki_get_or_create_page w (derive_title parseYaml name text) par.page_id
      par.space_key =
      (⟨natChars w.next_id, par.space_key, derive_title parseYaml name text⟩,
       ⟨w.pages ++ [⟨natChars w.next_id, par.space_key, derive_title parseYaml name text,
          some par.page_id⟩], w.next_id + 1, w.domain, w.base_path, w.space_key⟩,
       true) := by
    unfold wiki_get_or_create_page
    rw [hfind]
  rw [hW] at hW2
  have hpage : page = ⟨natChars w.next_id, par.space_key,
      derive_title parseYaml name text⟩ := congrArg Prod.fst hW2
  have hw1 : w1 = ⟨w.pages ++ [⟨natChars w.next_id, par.space_key,
      derive_title parseYaml name text, some par.page_id⟩],
      w.next_id + 1, w.domain, w.base_path, w.space_key⟩ :=
    congrArg (fun r => r.2.1) hW2
  have hcreated : created = true := congrArg (fun r => r.2.2) hW2
  subst hpage hw1 hcreated
  obtain ⟨skr, rest, hround⟩ :=
    extract_update text (natChars w.next_id) par.space_key hfree (natChars_no_space _)
  have hext2 : (extract_qualified_id
      (update_markdown text (natChars w.next_id) par.space_key)).1 =
      some ⟨natChars w.next_id, skr⟩ := by
    rw [hround]
  have hgp : wiki_get_page
      (⟨w.pages ++ [⟨natChars w.next_id, par.space_key,
        derive_title parseYaml name text, some par.page_id⟩],
        w.next_id + 1, w.domain, w.base_path, w.space_key⟩ : Wiki)
      (natChars w.next_id) skr =
      ⟨natChars w.next_id, par.space_key, derive_title parseYaml name text⟩ := by
    unfold wiki_get_page
    rw [show (⟨w.pages ++ [⟨natChars w.next_id, par.space_key,
        derive_title parseYaml name text, some par.page_id⟩],
        w.next_id + 1, w.domain, w.base_path, w.space_key⟩ : Wiki).pages =
      w.pages ++ [⟨natChars w.next_id, par.space_key,
        derive_title parseYaml name text, some par.page_id⟩] from rfl]
    rw [List.find?_append]
    have h1 : w.pages.find? (fun p => p.id == natChars w.next_id) = none := by
      rw [List.find?_eq_none]
      intro pg hpg hc
      exact hid pg hpg (by simpa using hc)
    rw [h1]
    simp
  refine ⟨_, _, _, _, _, _, _, _, hrun1,
    gocp_marker_ok parseYaml path name
      (update_markdown text (natChars w.next_id) par.space_key) none par2 _
      ⟨natChars w.next_id, skr⟩ hext2, ?_, ?_, ?_, ?_, ?_, rfl, rfl⟩
  · simp [createdCount]
  · simp [createdCount]
  · exact ⟨skr, by simp [mk_metadata]⟩
  · simp [read_qualified_id, hext2]
  · rw [hgp]

theorem c1_sync_twice_single_creation_witness :
    (firstMatch pid_open (strOf "hello") = none) ∧
    (∃ md1 txt1 w1 ev1 md2 txt2 w2 ev2,
      get_or_create_page exParse [strOf "a.md"] (strOf "a.md") (strOf "hello") none
          (some ⟨strOf "9", none⟩) exWiki = Except.ok (md1, txt1, w1, ev1) ∧
      get_or_create_page exParse [strOf "a.md"] (strOf "a.md") txt1 none none w1 =
        Except.ok (md2, txt2, w2, ev2) ∧
      createdCount ev1 = 1 ∧ createdCount ev2 = 0 ∧
      (∃ sk2, ev2 = [Event.resolve [strOf "a.md"] none,
        Event.get_page md1.page_id sk2]) ∧
      read_qualified_id txt1 ≠ none ∧
      md2.page_id = md1.page_id ∧ txt2 = txt1 ∧ w2 = w1) :=
  ⟨by decide,
    c1_sync_twice_single_creation exParse [strOf "a.md"] (strOf "a.md") (strOf "hello")
      ⟨strOf "9", none⟩ none exWiki (by decide) (by decide) (by decide)⟩

theorem c6_malformed_frontmatter_witness :
    ((extract_qualified_id (strOf "---\n- x\n---\nbody")).1 = none ∧
      (extract_frontmatter (strOf "---\n- x\n---\nbody")).1 = some (strOf "- x")) ∧
    (∃ md txt w2 created rid,
      get_or_create_page exParse [strOf "a.md"] (strOf "a.md")
          (strOf "---\n- x\n---\nbody") none
          (some ⟨strOf "9", none⟩) exWiki =
        Except.ok (md, txt, w2,
          [Event.resolve [strOf "a.md"] (some ⟨strOf "9", none⟩),
           Event.get_or_create_page (stemOf (strOf "a.md")) (strOf "9") none
             created rid])) :=
  ⟨⟨by decide, by decide⟩,
    c6_malformed_frontmatter exParse [strOf "a.md"] (strOf "a.md")
      (strOf "---\n- x\n---\nbody") (strOf "- x") ⟨strOf "9", none⟩ exWiki
      (by decide) (by decide) (fun es => by simp [exParse])⟩

/-! ### Directory indexing lemmas -/

theorem gocp_ok_events (parseYaml : Str → Yaml) (path : List Str) (name text : Str)
    (parent_id : Option ConfluenceQualifiedID) (w : Wiki)
    (md : ConfluencePageMetadata) (txt : Str) (w2 : Wiki) (ev : List Event)
    (h : get_or_create_page parseYaml path name text none parent_id w =
      Except.ok (md, txt, w2, ev)) :
    (∃ tl, ev = Event.resolve path parent_id :: tl) ∧
    (∀ e ∈ ev, isSyncEvent e = false) := by
  cases hq : (extract_qualified_id text).1 with
  | some qid =>
    rw [gocp_marker_ok parseYaml path name text none parent_id w qid hq] at h
    simp only [Except.ok.injEq, Prod.mk.injEq] at h
    obtain ⟨_, _, _, hev⟩ := h
    refine ⟨⟨[Event.get_page qid.page_id qid.space_key], hev.symm⟩, ?_⟩
    intro e he
    rw [← hev] at he
    rcases (by simpa using he :
      e = Event.resolve path parent_id ∨
        e = Event.get_page qid.page_id qid.space_key) with rfl | rfl <;> rfl
  | none =>
    cases parent_id with
    | none => simp [get_or_create_page, hq] at h
    | some par =>
      obtain ⟨page, w2b, created, hW, hrun⟩ :=
        gocp_markerless_ok parseYaml path name text par w hq
      rw [hrun] at h
      simp only [Except.ok.injEq, Prod.mk.injEq] at h
      obtain ⟨_, _, _, hev⟩ := h
      refine ⟨⟨_, hev.symm⟩, ?_⟩
      intro e he
      rw [← hev] at he
      rcases (by simpa using he :
        e = Event.resolve path (some par) ∨
          e = Event.get_or_create_page (derive_title parseYaml name text) par.page_id
            par.space_key created page.id) with rfl | rfl <;> rfl

theorem metaInsert_keys_nodup {m : List (List Str × ConfluencePageMetadata)}
    {k : List Str} {v : ConfluencePageMetadata}
    (h : (m.map Prod.fst).Nodup) :
    ((metaInsert m k v).map Prod.fst).Nodup := by
  unfold metaInsert
  by_cases hany : m.any (fun e => e.1 == k)
  · rw [if_pos hany]
    have heq : (m.map (fun e => if e.1 == k then (k, v) else e)).map Prod.fst =
        m.map Prod.fst := by
      rw [List.map_map]
      apply List.map_congr_left
      intro e he
      by_cases he2 : e.1 == k
      · simp only [Function.comp_apply, he2, if_true]
        exact (beq_iff_eq.1 he2).symm
      · have he3 : e.1 ≠ k := by simpa using he2
        simp [he3]
    rw [heq]
    exact h
  · rw [if_neg hany, List.map_append]
    have hnotin : k ∉ m.map Prod.fst := by
      intro hk
      obtain ⟨e, he, hke⟩ := List.mem_map.1 hk
      have : m.any (fun e => e.1 == k) = true :=
        List.any_eq_true.2 ⟨e, he, by simp [hke]⟩
      exact hany this
    simp only [List.map_cons, List.map_nil]
    refine List.nodup_append.2 ⟨h, List.nodup_singleton k, ?_⟩
    intro a ha hb
    have hak : a = k := by simpa using hb
    subst hak
    exact hnotin ha

theorem index_files_ok (parseYaml : Str → Yaml) (pfx : List Str)
    (parent_id : Option ConfluenceQualifiedID) :
    ∀ (fs : List (Str × Str)) (st st2 : IxSt),
      index_files parseYaml pfx parent_id fs st = Except.ok st2 →
      (∃ ext, st2.log = st.log ++ ext ∧ (∀ e ∈ ext, isSyncEvent e = false)) ∧
      (∀ nf ∈ fs, Event.resolve (pfx ++ [nf.1]) parent_id ∈ st2.log) ∧
      ((st.meta.map Prod.fst).Nodup → (st2.meta.map Prod.fst).Nodup) := by
  intro fs
  induction fs with
  | nil =>
    intro st st2 h
    simp only [index_files, Except.ok.injEq] at h
    subst h
    exact ⟨⟨[], by simp, by simp⟩, by simp, id⟩
  | cons nf rest ih =>
    intro st st2 h
    obtain ⟨n, txt⟩ := nf
    unfold index_files at h
    cases hg : get_or_create_page parseYaml (pfx ++ [n]) n txt none parent_id st.wiki with
    | error e =>
      rw [hg] at h
      exact absurd h (by simp)
    | ok q =>
      obtain ⟨md, txt2, w2, ev⟩ := q
      rw [hg] at h
      obtain ⟨⟨ext, hlog, hsync⟩, hmem, hnd⟩ := ih _ st2 h
      obtain ⟨⟨tl, hev⟩, hevsync⟩ := gocp_ok_events _ _ _ _ _ _ _ _ _ _ hg
      refine ⟨⟨ev ++ ext, ?_, ?_⟩, ?_, ?_⟩
      · rw [hlog]
        simp [List.append_assoc]
      · intro e he
        rcases List.mem_append.1 he with h1 | h1
        · exact hevsync e h1
        · exact hsync e h1
      · intro nf2 hnf2
        rcases List.mem_cons.1 hnf2 with rfl | hmem2
        · rw [hlog]
          apply List.mem_append_left
          apply List.mem_append_right
          rw [hev]
          exact List.mem_cons_self _ _
        · exact hmem nf2 hmem2
      · intro hnodup
        exact hnd (metaInsert_keys_nodup hnodup)

/-- Unfolding of `process_level` when a representative document is selected. -/
theorem process_level_rep (parseYaml : Str → Yaml) (excluded : Str → Bool → Bool)
    (pfx : List Str) (root_id : Option ConfluenceQualifiedID)
    (files0 : List (Str × Str)) (st st1 : IxSt)
    (parentId : Option ConfluenceQualifiedID) (repN repTxt : Str)
    (hsel : selectRep (files0.filter (fun f => ! excluded f.1 false)) =
      some (repN, repTxt))
    (h : process_level parseYaml excluded pfx root_id files0 st =
      Except.ok (st1, parentId)) :
    ∃ md newTxt w2 ev,
      get_or_create_page parseYaml (pfx ++ [repN]) repN repTxt none root_id st.wiki =
        Except.ok (md, newTxt, w2, ev) ∧
      parentId = (match read_qualified_id newTxt with
        | some q => some q
        | none => root_id) ∧
      index_files parseYaml pfx parentId
        ((files0.filter (fun f => ! excluded f.1 false)).eraseP
          (fun f => f.1 == repN))
        ⟨w2, metaInsert st.meta (pfx ++ [repN]) md, st.log ++ ev⟩ =
        Except.ok st1 := by
  simp only [process_level, hsel] at h
  cases hg : get_or_create_page parseYaml (pfx ++ [repN]) repN repTxt none root_id
      st.wiki with
  | error e => simp [hg] at h
  | ok q =>
    obtain ⟨md, newTxt, w2, ev⟩ := q
    simp only [hg] at h
    cases hif : index_files parseYaml pfx
        (match read_qualified_id newTxt with
          | some q => some q
          | none => root_id)
        ((files0.filter (fun f => ! excluded f.1 false)).eraseP
          (fun f => f.1 == repN))
        ⟨w2, metaInsert st.meta (pfx ++ [repN]) md, st.log ++ ev⟩ with
    | error e => simp [hif] at h
    | ok st2 =>
      simp only [hif, Except.ok.injEq, Prod.mk.injEq] at h
      obtain ⟨hst, hpid⟩ := h
      subst hst
      subst hpid
      exact ⟨md, newTxt, w2, ev, rfl, rfl, hif⟩

/-- One step of the worklist walk: a level's subdirectories are pushed with
the parent identity computed for that level. -/
theorem index_directory_step (parseYaml : Str → Yaml) (excluded : Str → Bool → Bool)
    (fuel : Nat) (pfx : List Str) (root_id : Option ConfluenceQualifiedID)
    (files0 : List (Str × Str)) (subs0 : List (Str × DirTree))
    (rest : List (List Str × Option ConfluenceQualifiedID × DirTree))
    (st st1 : IxSt) (parentId : Option ConfluenceQualifiedID)
    (h : process_level parseYaml excluded pfx root_id files0 st =
      Except.ok (st1, parentId)) :
    index_directory parseYaml excluded (fuel + 1)
      ((pfx, root_id, DirTree.mk files0 subs0) :: rest) st =
      index_directory parseYaml excluded fuel
        ((subs0.filter (fun s => ! excluded s.1 true)).map
          (fun s => (pfx ++ [s.1], parentId, s.2)) ++ rest) st1 := by
  conv_lhs => rw [index_directory]
  rw [h]

/-- C4: when a directory's surviving entries include both `index.md` and
`README.md`, the selection picks `index.md` (exact name, first in
priority), `README.md` stays in the plain-file batch that `index.md` is
erased from, the representative is processed first — its resolver call is
the first new event, carrying the directory's inherited parent identity —
and `README.md` is resolved as an ordinary plain file with the
representative-derived parent identity. -/
theorem c4_index_md_over_readme (parseYaml : Str → Yaml)
    (excluded : Str → Bool → Bool) (pfx : List Str)
    (root_id : Option ConfluenceQualifiedID) (files0 : List (Str × Str))
    (st st1 : IxSt) (parentId : Option ConfluenceQualifiedID) (cI cR : Str)
    (hI : (strOf "index.md", cI) ∈ files0.filter (fun f => ! excluded f.1 false))
    (hR : (strOf "README.md", cR) ∈ files0.filter (fun f => ! excluded f.1 false))
    (h : process_level parseYaml excluded pfx root_id files0 st =
      Except.ok (st1, parentId)) :
    (∃ repTxt, selectRep (files0.filter (fun f => ! excluded f.1 false)) =
      some (strOf "index.md", repTxt)) ∧
    (strOf "README.md", cR) ∈
      (files0.filter (fun f => ! excluded f.1 false)).eraseP
        (fun f => f.1 == strOf "index.md") ∧
    (∃ rest2, st1.log = st.log ++
      (Event.resolve (pfx ++ [strOf "index.md"]) root_id :: rest2)) ∧
    Event.resolve (pfx ++ [strOf "README.md"]) parentId ∈ st1.log := by
  have hfindS : ((files0.filter (fun f => ! excluded f.1 false)).find?
      (fun f => f.1 == strOf "index.md")).isSome :=
    List.find?_isSome.2 ⟨(strOf "index.md", cI), hI, by simp⟩
  obtain ⟨f, hf⟩ := Option.isSome_iff_exists.1 hfindS
  have hf1 : f.1 = strOf "index.md" := by simpa using List.find?_some hf
  have hsel : selectRep (files0.filter (fun f => ! excluded f.1 false)) = some f := by
    unfold selectRep
    rw [hf]
  have hself : selectRep (files0.filter (fun f => ! excluded f.1 false)) =
      some (f.1, f.2) := hsel
  obtain ⟨md, newTxt, w2, ev, hg, hpid, hif⟩ :=
    process_level_rep parseYaml excluded pfx root_id files0 st st1 parentId f.1 f.2
      hself h
  obtain ⟨⟨ext, hlog, _⟩, hmem, _⟩ := index_files_ok parseYaml pfx parentId _ _ _ hif
  obtain ⟨⟨tl, hev⟩, _⟩ := gocp_ok_events _ _ _ _ _ _ _ _ _ _ hg
  have hRbatch : (strOf "README.md", cR) ∈
      (files0.filter (fun f => ! excluded f.1 false)).eraseP
        (fun f => f.1 == strOf "index.md") := by
    refine (List.mem_eraseP_of_neg ?_).2 hR
    show ¬(strOf "README.md" == strOf "index.md") = true
    decide
  have hfeq : f = (strOf "index.md", f.2) := by rw [← hf1]
  refine ⟨⟨f.2, by rw [hsel, hfeq]⟩, hRbatch, ?_, ?_⟩
  · refine ⟨tl ++ ext, ?_⟩
    rw [hlog, hev, hf1]
    simp [List.append_assoc]
  · exact hmem (strOf "README.md", cR) (by rw [hf1]; exact hRbatch)

theorem c4_index_md_over_readme_witness :
    ∃ st1 parentId,
      process_level exParse (fun _ _ => false) [] (some ⟨strOf "9", none⟩) c4files
        ⟨exWiki, [], []⟩ = Except.ok (st1, parentId) ∧
      Event.resolve ([] ++ [strOf "README.md"]) parentId ∈ st1.log := by
  have hok : isOkLevel (process_level exParse (fun _ _ => false) []
      (some ⟨strOf "9", none⟩) c4files ⟨exWiki, [], []⟩) = true := by decide
  cases h : process_level exParse (fun _ _ => false) [] (some ⟨strOf "9", none⟩)
      c4files ⟨exWiki, [], []⟩ with
  | error e =>
    rw [h] at hok
    exact absurd hok (by simp [isOkLevel])
  | ok q =>
    obtain ⟨st1, parentId⟩ := q
    exact ⟨st1, parentId, rfl,
      (c4_index_md_over_readme exParse (fun _ _ => false) []
        (some ⟨strOf "9", none⟩) c4files ⟨exWiki, [], []⟩ st1 parentId
        (strOf "<!-- confluence-page-id: 1 -->\ntop")
        (strOf "<!-- confluence-page-id: 2 -->\nreadme")
        (by decide) (by decide) h).2.2.2⟩

/-- C3 (amended): after a directory level with a representative document is
processed, the parent identity propagated onward is the identity read back
from the representative's (possibly rewritten) file — in particular, its
embedded identity when it had one — with the inherited parent only as
fallback; every remaining plain file of the level is resolved with that
parent identity, and the subdirectories are pushed onto the walk with it as
their inherited parent (their own representative may override it for their
own contents). -/
theorem c3_rep_parent_propagation (parseYaml : Str → Yaml)
    (excluded : Str → Bool → Bool) (fuel : Nat) (pfx : List Str)
    (root_id : Option ConfluenceQualifiedID) (files0 : List (Str × Str))
    (subs0 : List (Str × DirTree))
    (rest : List (List Str × Option ConfluenceQualifiedID × DirTree))
    (st st1 : IxSt) (parentId : Option ConfluenceQualifiedID) (repN repTxt : Str)
    (hsel : selectRep (files0.filter (fun f => ! excluded f.1 false)) =
      some (repN, repTxt))
    (h : process_level parseYaml excluded pfx root_id files0 st =
      Except.ok (st1, parentId)) :
    (∃ md newTxt w2 ev,
      get_or_create_page parseYaml (pfx ++ [repN]) repN repTxt none root_id st.wiki =
        Except.ok (md, newTxt, w2, ev) ∧
      parentId = (match read_qualified_id newTxt with
        | some q => some q
        | none => root_id) ∧
      (∀ qid, (extract_qualified_id repTxt).1 = some qid → parentId = some qid)) ∧
    (∀ nf ∈ (files0.filter (fun f => ! excluded f.1 false)).eraseP
        (fun f => f.1 == repN),
      Event.resolve (pfx ++ [nf.1]) parentId ∈ st1.log) ∧
    index_directory parseYaml excluded (fuel + 1)
      ((pfx, root_id, DirTree.mk files0 subs0) :: rest) st =
      index_directory parseYaml excluded fuel
        ((subs0.filter (fun s => ! excluded s.1 true)).map
          (fun s => (pfx ++ [s.1], parentId, s.2)) ++ rest) st1 := by
  obtain ⟨md, newTxt, w2, ev, hg, hpid, hif⟩ :=
    process_level_rep parseYaml excluded pfx root_id files0 st st1 parentId
      repN repTxt hsel h
  obtain ⟨_, hmem, _⟩ := index_files_ok parseYaml pfx parentId _ _ _ hif
  refine ⟨⟨md, newTxt, w2, ev, hg, hpid, ?_⟩, hmem, index_directory_step
    parseYaml excluded fuel pfx root_id files0 subs0 rest st st1 parentId h⟩
  intro qid hq
  have hmk := gocp_marker_ok parseYaml (pfx ++ [repN]) repN repTxt none root_id
    st.wiki qid hq
  have hcomb := hmk.symm.trans hg
  simp only [Except.ok.injEq, Prod.mk.injEq] at hcomb
  obtain ⟨_, htxt, _, _⟩ := hcomb
  rw [hpid]
  rw [← htxt]
  show (match read_qualified_id repTxt with
    | some q => some q
    | none => root_id) = some qid
  rw [read_qualified_id, hq]

/-- C3 (counterexample to the claim as stated): in a tree whose top
directory and subdirectory both hold an `index.md` with an embedded
identity plus a markerless sibling in the subdirectory, the sibling is
resolved with the subdirectory representative's identity (`2`) as parent,
not the top representative's identity (`1`). -/
theorem c3_counterexample :
    isOk exRun = true ∧
    Event.resolve [strOf "sub", strOf "a.md"]
      (some ⟨strOf "2", none⟩) ∈ logOf exRun ∧
    ¬ (∀ e ∈ logOf exRun,
        resolveViolates [strOf "index.md"] ⟨strOf "1", none⟩ e = false) := by
  refine ⟨by decide, by decide, ?_⟩
  intro hall
  have := hall (Event.resolve [strOf "sub", strOf "a.md"] (some ⟨strOf "2", none⟩))
    (by decide)
  exact absurd this (by decide)

theorem c3_rep_parent_propagation_witness :
    ∃ st1 parentId,
      process_level exParse (fun _ _ => false) [] (some ⟨strOf "9", none⟩) c4files
        ⟨exWiki, [], []⟩ = Except.ok (st1, parentId) ∧
      parentId = some ⟨strOf "1", none⟩ := by
  have hok : isOkLevel (process_level exParse (fun _ _ => false) []
      (some ⟨strOf "9", none⟩) c4files ⟨exWiki, [], []⟩) = true := by decide
  cases h : process_level exParse (fun _ _ => false) [] (some ⟨strOf "9", none⟩)
      c4files ⟨exWiki, [], []⟩ with
  | error e =>
    rw [h] at hok
    exact absurd hok (by simp [isOkLevel])
  | ok q =>
    obtain ⟨st1, parentId⟩ := q
    obtain ⟨⟨md, newTxt, w2, ev, hg, hpid, hqid⟩, _, _⟩ :=
      c3_rep_parent_propagation exParse (fun _ _ => false) 1 []
        (some ⟨strOf "9", none⟩) c4files [] [] ⟨exWiki, [], []⟩ st1 parentId
        (strOf "index.md") (strOf "<!-- confluence-page-id: 1 -->\ntop")
        (by decide) h
    exact ⟨st1, parentId, rfl, hqid ⟨strOf "1", none⟩ (by decide)⟩

theorem process_level_inv (parseYaml : Str → Yaml) (excluded : Str → Bool → Bool)
    (pfx : List Str) (root_id : Option ConfluenceQualifiedID)
    (files0 : List (Str × Str)) (st st1 : IxSt)
    (parentId : Option ConfluenceQualifiedID)
    (h : process_level parseYaml excluded pfx root_id files0 st =
      Except.ok (st1, parentId)) :
    (∃ ext, st1.log = st.log ++ ext ∧ (∀ e ∈ ext, isSyncEvent e = false)) ∧
    ((st.meta.map Prod.fst).Nodup → (st1.meta.map Prod.fst).Nodup) := by
  cases hsel : selectRep (files0.filter (fun f => ! excluded f.1 false)) with
  | none =>
    simp only [process_level, hsel] at h
    cases hif : index_files parseYaml pfx root_id
        (files0.filter (fun f => ! excluded f.1 false)) st with
    | error e => simp [hif] at h
    | ok st2 =>
      simp only [hif, Except.ok.injEq, Prod.mk.injEq] at h
      obtain ⟨hst, _⟩ := h
      subst hst
      obtain ⟨hext, _, hnd⟩ := index_files_ok parseYaml pfx root_id _ _ _ hif
      exact ⟨hext, hnd⟩
  | some rp =>
    obtain ⟨repN, repTxt⟩ := rp
    obtain ⟨md, newTxt, w2, ev, hg, _, hif⟩ :=
      process_level_rep parseYaml excluded pfx root_id files0 st st1 parentId
        repN repTxt hsel h
    obtain ⟨⟨ext, hlog, hsync⟩, _, hnd⟩ := index_files_ok parseYaml pfx parentId _ _ _ hif
    obtain ⟨_, hevsync⟩ := gocp_ok_events _ _ _ _ _ _ _ _ _ _ hg
    refine ⟨⟨ev ++ ext, ?_, ?_⟩, ?_⟩
    · rw [hlog]
      simp [List.append_assoc]
    · intro e he
      rcases List.mem_append.1 he with h1 | h1
      · exact hevsync e h1
      · exact hsync e h1
    · intro hnodup
      exact hnd (metaInsert_keys_nodup hnodup)

theorem index_directory_inv (parseYaml : Str → Yaml) (excluded : Str → Bool → Bool) :
    ∀ (fuel : Nat) (work : List (List Str × Option ConfluenceQualifiedID × DirTree))
      (st st2 : IxSt),
      index_directory parseYaml excluded fuel work st = Except.ok st2 →
      (∃ ext, st2.log = st.log ++ ext ∧ (∀ e ∈ ext, isSyncEvent e = false)) ∧
      ((st.meta.map Prod.fst).Nodup → (st2.meta.map Prod.fst).Nodup) := by
  intro fuel
  induction fuel with
  | zero =>
    intro work st st2 h
    simp [index_directory] at h
  | succ f ih =>
    intro work st st2 h
    match work with
    | [] =>
      simp only [index_directory, Except.ok.injEq] at h
      subst h
      exact ⟨⟨[], by simp, by simp⟩, id⟩
    | (pfx, root_id, DirTree.mk files0 subs0) :: rest =>
      rw [index_directory] at h
      cases hp : process_level parseYaml excluded pfx root_id files0 st with
      | error e => simp [hp] at h
      | ok q =>
        obtain ⟨st1, parentId⟩ := q
        simp only [hp] at h
        obtain ⟨⟨ext2, hlog2, hsync2⟩, hnd2⟩ := ih _ _ _ h
        obtain ⟨⟨ext1, hlog1, hsync1⟩, hnd1⟩ :=
          process_level_inv parseYaml excluded pfx root_id files0 st st1 parentId hp
        refine ⟨⟨ext1 ++ ext2, ?_, ?_⟩, fun hn => hnd2 (hnd1 hn)⟩
        · rw [hlog2, hlog1, List.append_assoc]
        · intro e he
          rcases List.mem_append.1 he with h1 | h1
          · exact hsync1 e h1
          · exact hsync2 e h1

/-- C9: directory-mode synchronization is two-phase: on success, the run's
log is the indexing log — which contains no page-synchronization events —
followed by exactly one synchronization event per Identity Map entry, in
map order; and the map's keys are free of duplicates, so every synchronized
path has exactly one entry when synchronization begins. -/
theorem c9_two_phase_index_then_sync (parseYaml : Str → Yaml)
    (excluded : Str → Bool → Bool) (fuel : Nat) (tree : DirTree)
    (root_page_id : Option Str) (w : Wiki) (st2 : IxSt)
    (h : synchronize_directory parseYaml excluded fuel tree root_page_id w =
      Except.ok st2) :
    ∃ idxLog, st2.log = idxLog ++ st2.meta.map (fun pm => Event.sync_page pm.1) ∧
      (∀ e ∈ idxLog, isSyncEvent e = false) ∧
      (st2.meta.map Prod.fst).Nodup := by
  simp only [synchronize_directory] at h
  cases hidx : index_directory parseYaml excluded fuel
      [([], root_page_id.map (fun r => (⟨r, some w.space_key⟩ : ConfluenceQualifiedID)),
        tree)] ⟨w, [], []⟩ with
  | error e => simp [hidx] at h
  | ok st =>
    simp only [hidx, Except.ok.injEq] at h
    obtain ⟨⟨ext, hlog, hsync⟩, hnd⟩ :=
      index_directory_inv parseYaml excluded fuel _ _ _ hidx
    refine ⟨st.log, ?_, ?_, ?_⟩
    · rw [← h]
    · intro e he
      have he2 : e ∈ ext := by
        have hlog2 : st.log = ext := by simpa using hlog
        rwa [hlog2] at he
      exact hsync e he2
    · rw [← h]
      exact hnd (by simp)

theorem c9_two_phase_index_then_sync_witness :
    ∃ st2,
      synchronize_directory exParse (fun _ _ => false) 5 exTree none exWiki =
        Except.ok st2 ∧
      ∃ idxLog, st2.log = idxLog ++ st2.meta.map (fun pm => Event.sync_page pm.1) ∧
        (∀ e ∈ idxLog, isSyncEvent e = false) ∧
        (st2.meta.map Prod.fst).Nodup := by
  have hok : isOk (synchronize_directory exParse (fun _ _ => false) 5 exTree none
      exWiki) = true := by decide
  cases h : synchronize_directory exParse (fun _ _ => false) 5 exTree none exWiki with
  | error e =>
    rw [h] at hok
    exact absurd hok (by simp [isOk])
  | ok st2 =>
    exact ⟨st2, rfl, c9_two_phase_index_then_sync exParse (fun _ _ => false) 5 exTree
      none exWiki st2 h⟩

/-! ### Page Synchronizer -/

theorem foldl_append_map {α : Type} (f : α → Event) :
    ∀ (l : List α) (init : List Event),
      l.foldl (fun acc x => acc ++ [f x]) init = init ++ l.map f := by
  intro l
  induction l with
  | nil => intro init; simp
  | cons x rest ih =>
    intro init
    simp [ih, List.append_assoc]

theorem update_document_eq (d : ConfluenceDocument) (sp bp : Str) :
    update_document d sp bp =
      (d.images.map (fun img => Event.upload_attachment d.id.page_id sp (bp ++ img)
          (attachment_name img) false) ++
       d.embedded_images.map (fun im => Event.upload_attachment d.id.page_id sp
          (strOf "EMB/" ++ im.1) (attachment_name im.1) true)) ++
      [Event.update_page d.id.page_id sp d.content] := by
  simp only [update_document, foldl_append_map, List.nil_append]

theorem update_document_space (d : ConfluenceDocument) (sp bp : Str) :
    ∀ e ∈ update_document d sp bp, eventSpace e = some sp := by
  rw [update_document_eq]
  intro e he
  rcases List.mem_append.1 he with h | h
  · rcases List.mem_append.1 h with h2 | h2 <;>
      (obtain ⟨x, hx, rfl⟩ := List.mem_map.1 h2; rfl)
  · have h2 : e = Event.update_page d.id.page_id sp d.content := by simpa using h
    subst h2
    rfl

/-- C8: for every synchronized document, the remote calls of
`_update_document` are the uploads of all file-referenced images, then the
uploads of all embedded images, and then the single content update — so
every attachment upload is issued before the page-content update, which is
the last remote call for the document. -/
theorem c8_attachments_before_update (d : ConfluenceDocument) (sp bp : Str) :
    update_document d sp bp =
      (d.images.map (fun img => Event.upload_attachment d.id.page_id sp (bp ++ img)
          (attachment_name img) false) ++
       d.embedded_images.map (fun im => Event.upload_attachment d.id.page_id sp
          (strOf "EMB/" ++ im.1) (attachment_name im.1) true)) ++
      [Event.update_page d.id.page_id sp d.content] ∧
    (∀ e ∈ (d.images.map (fun img => Event.upload_attachment d.id.page_id sp (bp ++ img)
          (attachment_name img) false) ++
       d.embedded_images.map (fun im => Event.upload_attachment d.id.page_id sp
          (strOf "EMB/" ++ im.1) (attachment_name im.1) true)),
      isUploadEvent e = true) ∧
    (update_document d sp bp).getLast? =
      some (Event.update_page d.id.page_id sp d.content) := by
  refine ⟨update_document_eq d sp bp, ?_, ?_⟩
  · intro e he
    rcases List.mem_append.1 he with h | h <;>
      (obtain ⟨x, hx, rfl⟩ := List.mem_map.1 h; rfl)
  · rw [update_document_eq]
    exact List.getLast?_concat _

theorem c8_attachments_before_update_witness :
    (update_document ⟨⟨strOf "5", none⟩, [strOf "img.png"],
      [(strOf "e.png", strOf "DATA")], strOf "c"⟩ (strOf "SPACE")
      (strOf "/b/")).getLast? =
      some (Event.update_page (strOf "5") (strOf "SPACE") (strOf "c")) :=
  (c8_attachments_before_update ⟨⟨strOf "5", none⟩, [strOf "img.png"],
    [(strOf "e.png", strOf "DATA")], strOf "c"⟩ (strOf "SPACE") (strOf "/b/")).2.2

/-- C7: the effective space of every remote call made for a document is its
assigned space when it has one, the session default otherwise; the session
space is back at the default afterwards; and the effective space differs
from the default exactly when the document's assigned space exists and
differs from the default (space keys assumed non-empty: an empty key is
falsy in the source and means "no space"). -/
theorem c7_space_switch_scoped (d : ConfluenceDocument) (s bp : Str)
    (hwf : d.id.space_key ≠ some []) :
    (synchronize_page d s bp).2 = s ∧
    (∀ e ∈ (synchronize_page d s bp).1,
      eventSpace e = some (d.id.space_key.getD s)) ∧
    ((d.id.space_key.getD s ≠ s) ↔
      (d.id.space_key ≠ none ∧ d.id.space_key ≠ some s)) := by
  cases hsk : d.id.space_key with
  | none =>
    refine ⟨by simp [synchronize_page, hsk], ?_, by simp [hsk]⟩
    intro e he
    simp only [synchronize_page, hsk] at he
    simpa using update_document_space d s bp e he
  | some k =>
    have hk : k.isEmpty = false := by
      cases k with
      | nil => exact absurd hsk hwf
      | cons c rest => rfl
    refine ⟨by simp [synchronize_page, hsk, hk], ?_, ?_⟩
    · intro e he
      simp only [synchronize_page, hsk, hk, Bool.false_eq_true, if_false] at he
      simpa using update_document_space d k bp e he
    · simp [hsk]

theorem c7_space_switch_scoped_witness :
    ((some (strOf "K") : Option Str) ≠ some []) ∧
    (synchronize_page ⟨⟨strOf "5", some (strOf "K")⟩, [], [], strOf "c"⟩
      (strOf "SPACE") (strOf "/b/")).2 = strOf "SPACE" ∧
    (((some (strOf "K") : Option Str).getD (strOf "SPACE") ≠ strOf "SPACE") ↔
      ((some (strOf "K") : Option Str) ≠ none ∧
        (some (strOf "K") : Option Str) ≠ some (strOf "SPACE"))) :=
  ⟨by decide,
    (c7_space_switch_scoped ⟨⟨strOf "5", some (strOf "K")⟩, [], [], strOf "c"⟩
      (strOf "SPACE") (strOf "/b/") (by decide)).1,
    (c7_space_switch_scoped ⟨⟨strOf "5", some (strOf "K")⟩, [], [], strOf "c"⟩
      (strOf "SPACE") (strOf "/b/") (by decide)).2.2⟩

end Md2Conf
